import Mathlib

/-!
# Verification of the trivium row-query engine

Shallow embedding of the Rust sources under `src/src-tauri/src` (the boolean
search tokenizer and mask evaluator in `search.rs`, the flag taxonomy in
`flags.rs`, the IOC CSV layer in `ioc.rs`, and the `query_project_rows` /
`update_flag` commands in `commands/rows.rs` and `commands/flags.rs`),
together with theorems settling the frozen claims about it.

Modelling conventions:
* Rust `String` is Lean `String`; `str::trim` is modelled on `Char.isWhitespace`
  (ASCII whitespace; the claims only exercise ASCII), `str::to_lowercase` by
  `Char.toLower` per character (identity beyond ASCII, which agrees with Rust
  on every string the claims exercise).
* A polars column is a `List (Option String)` holding, for each row, the result
  of `anyvalue_to_search_string` (`none` for null); a `DataFrame` is the list of
  its named columns.  `Series::get` out of range is `none`, like the Rust `Err`.
* Rust `HashMap`s are association lists: maps built with a `contains_key` guard
  keep their first binding, maps built by plain `insert` keep the last one.
* `f64` values obtained from `str::parse::<f64>` are kept exact as rationals
  (plus `nan` / `inf` markers); rounding to binary64 is not modelled, which is
  faithful on every comparison the claims exercise.
* Rust's stable `sort_by` is modelled by a stable insertion sort.
-/

namespace Trivium

/-! ## Character and string primitives -/

/-- Whitespace test used by the model of Rust `str::trim`. -/
def chIsWs (c : Char) : Bool := c.isWhitespace

/-- Drop leading and trailing whitespace from a character list. -/
def chTrimAux (cs : List Char) : List Char :=
  ((cs.dropWhile chIsWs).reverse.dropWhile chIsWs).reverse

/-- Model of Rust `str::trim`. -/
def rtrim (s : String) : String := ⟨chTrimAux s.data⟩

/-- Model of Rust `str::to_lowercase` (per-character ASCII lowering). -/
def rlower (s : String) : String := ⟨s.data.map Char.toLower⟩

/-- Does `needle` occur at the head of `hay`? -/
def chAtHead : List Char → List Char → Bool
  | [], _ => true
  | _ :: _, [] => false
  | a :: as, b :: bs => a == b && chAtHead as bs

/-- Does `needle` occur anywhere inside `hay`? -/
def chSubTest (needle : List Char) : List Char → Bool
  | [] => needle.isEmpty
  | h :: t => chAtHead needle (h :: t) || chSubTest needle t

/-- Model of Rust `str::contains` (substring containment). -/
def strHasSub (hay needle : String) : Bool := chSubTest needle.data hay.data

/-- Index of the first character satisfying `p`, if any. -/
def chFindIdx (p : Char → Bool) : List Char → Option Nat
  | [] => none
  | h :: t => if p h then some 0 else (chFindIdx p t).map (· + 1)

/-- Index of the first occurrence of `needle`, if any (model of `str::find`). -/
def chFindSub (needle : List Char) : List Char → Option Nat
  | [] => if needle.isEmpty then some 0 else none
  | h :: t => if chAtHead needle (h :: t) then some 0 else (chFindSub needle t).map (· + 1)

/-- Does the string start with character `c`? -/
def chStarts (s : String) (c : Char) : Bool :=
  match s.data with
  | [] => false
  | h :: _ => h == c

/-- Does the string end with character `c`? -/
def chEnds (s : String) (c : Char) : Bool :=
  match s.data.getLast? with
  | some l => l == c
  | none => false

/-- Strip all leading and trailing `'"'` characters (Rust `trim_matches('"')`). -/
def chTrimQuotes (cs : List Char) : List Char :=
  ((cs.dropWhile (· == '"')).reverse.dropWhile (· == '"')).reverse

/-- Lexicographic comparison of strings (Rust `str::cmp`; UTF-8 byte order
agrees with code-point order). -/
def strOrd (a b : String) : Ordering :=
  if a < b then .lt else if b < a then .gt else .eq

/-! ## Stable sort (model of Rust's stable `sort_by`) -/

/-- Insert `a` after every element `b` of an already sorted list with `le b a`,
so that ties keep their original order. -/
def insSorted (le : α → α → Bool) (a : α) : List α → List α
  | [] => [a]
  | b :: bs => if le b a then b :: insSorted le a bs else a :: b :: bs

/-- Stable insertion sort: the model of Rust's stable `slice::sort_by`. -/
def stableSortBy (le : α → α → Bool) (l : List α) : List α :=
  l.foldl (fun acc a => insSorted le a acc) []

/-! ## Flag taxonomy (`flags.rs`) -/

/-- `flags.rs::normalize_flag_value`. -/
def normalize_flag_value (flag : String) : String :=
  let trimmed := rtrim flag
  if trimmed.isEmpty then ""
  else
    let l := rlower trimmed
    if l == "safe" then "safe"
    else if l == "suspicious" then "suspicious"
    else if l == "critical" then "critical"
    else if l == "◯" then "safe"
    else if l == "?" then "suspicious"
    else if l == "✗" then "critical"
    else ""

/-- `flags.rs::severity_rank`. -/
def severity_rank (value : String) : Nat :=
  if value == "critical" then 3
  else if value == "suspicious" then 2
  else if value == "safe" then 1
  else 0

/-! ## Search tokens and the tokenizer (`search.rs`) -/

/-- `search.rs::SearchToken`. -/
inductive SearchToken where
  | term (col : Option String) (text : String)
  | quotedTerm (col : Option String) (text : String)
  | and
  | or
  | not
  deriving DecidableEq, Repr

/-- `search.rs::is_operand_token`. -/
def isOperandTok : SearchToken → Bool
  | .term _ _ => true
  | .quotedTerm _ _ => true
  | _ => false

/-- Is the token the unary NOT? -/
def isNotTok : SearchToken → Bool
  | .not => true
  | _ => false

/-- Character-by-character lexing loop of `tokenize_search_query`
(`search.rs` lines 31-85): splits the input into raw `(text, quoted)` parts,
collapsing runs of `|` and trimming each part.  Rust's peek loop that consumes
consecutive `|` is modelled by the `afterPipe` flag, which is set after an
out-of-quote pipe is emitted and cleared by any other character. -/
def lexParts : List Char → List Char → Bool → Bool → List (String × Bool)
  | [], buf, inQ, _ =>
    let t := chTrimAux buf
    if t.isEmpty then [] else [(⟨t⟩, inQ)]
  | '"' :: rest, buf, inQ, _ =>
    if inQ then
      let t := chTrimAux buf
      (if t.isEmpty then [] else [((⟨t⟩ : String), true)]) ++ lexParts rest [] false false
    else
      let t := chTrimAux buf
      (if t.isEmpty then [] else [((⟨t⟩ : String), false)]) ++ lexParts rest [] true false
  | '|' :: rest, buf, inQ, afterPipe =>
    if inQ then lexParts rest (buf ++ ['|']) true false
    else if afterPipe then lexParts rest buf false true
    else
      let t := chTrimAux buf
      (if t.isEmpty then [] else [((⟨t⟩ : String), false)]) ++ [("|", false)] ++
        lexParts rest [] false true
  | c :: rest, buf, inQ, _ =>
    if chIsWs c then
      if inQ then lexParts rest (buf ++ [c]) inQ false
      else
        let t := chTrimAux buf
        (if t.isEmpty then [] else [((⟨t⟩ : String), false)]) ++ lexParts rest [] false false
    else lexParts rest (buf ++ [c]) inQ false

/-- Merge pass of `tokenize_search_query` (`search.rs` lines 87-101):
`col:` followed by a quoted phrase becomes the single quoted part
`col:"phrase"`. -/
def mergeColPhrase : List (String × Bool) → List (String × Bool)
  | [] => []
  | [p] => [p]
  | (part, q1) :: (phrase, q2) :: rest =>
    if !q1 && chEnds part ':' && q2 then
      ((⟨part.data.dropLast⟩ : String) ++ ":\"" ++ phrase ++ "\"", true) :: mergeColPhrase rest
    else (part, q1) :: mergeColPhrase ((phrase, q2) :: rest)

/-- Split a string at its first `':'`, returning the text before and after it
(Rust `find(':')` + `split_at`). -/
def splitAtColon (s : String) : Option (String × String) :=
  match chFindIdx (· == ':') s.data with
  | none => none
  | some p => some (⟨s.data.take p⟩, ⟨s.data.drop (p + 1)⟩)

/-- Token mapping for one raw part (`search.rs` lines 104-165). -/
def partToTokens (part : String) (quoted : Bool) : List SearchToken :=
  if part == "|" && !quoted then [.or]
  else if !quoted && chStarts part '-' && part.data.length > 1 then
    let rest : String := ⟨part.data.drop 1⟩
    match splitAtColon rest with
    | some (c, t) => [.not, .term (some (rlower c)) (rlower t)]
    | none => [.not, .term none (rlower rest)]
  else
    match (if !quoted then splitAtColon part else none) with
    | some (c, t) => [.term (some (rlower c)) (rlower t)]
    | none =>
      if quoted then
        match chFindSub [':', '"'] part.data with
        | some p =>
          let c : String := ⟨part.data.take p⟩
          let t : List Char := part.data.drop p
          let textRaw := chTrimAux (t.drop 1)
          let text := rlower ⟨chTrimQuotes textRaw⟩
          [.quotedTerm (some (rlower c)) text]
        | none => [.quotedTerm none (rlower part)]
      else [.term none (rlower part)]

/-- All tokens of the merged raw parts. -/
def mapParts (parts : List (String × Bool)) : List SearchToken :=
  parts.flatMap fun pq => partToTokens pq.1 pq.2

/-- Column carry-over loop of `tokenize_search_query` (`search.rs` lines
171-209).  State: `last` is `last_operand_col`, `carry` is
`carry_col_for_next`. -/
def carryGo (last carry : Option String) : List SearchToken → List SearchToken
  | [] => []
  | .term col text :: rest =>
    match col with
    | none => .term carry text :: carryGo carry none rest
    | some c => .term (some c) text :: carryGo (some c) carry rest
  | .quotedTerm col text :: rest =>
    match col with
    | none => .quotedTerm carry text :: carryGo carry none rest
    | some c => .quotedTerm (some c) text :: carryGo (some c) carry rest
  | .or :: rest => .or :: carryGo last last rest
  | .and :: rest => .and :: carryGo last none rest
  | .not :: rest => .not :: carryGo last carry rest

/-- Column carry-over pass over a whole token stream. -/
def applyColumnCarry (toks : List SearchToken) : List SearchToken :=
  carryGo none none toks

/-- Implicit AND insertion (`search.rs` lines 211-227). -/
def insertImplicitAnd : List SearchToken → List SearchToken
  | [] => []
  | [t] => [t]
  | a :: b :: rest =>
    if isOperandTok a && (isOperandTok b || isNotTok b) then
      a :: .and :: insertImplicitAnd (b :: rest)
    else a :: insertImplicitAnd (b :: rest)

/-- `search.rs::tokenize_search_query`. -/
def tokenize_search_query (input : String) : List SearchToken :=
  insertImplicitAnd
    (applyColumnCarry (mapParts (mergeColPhrase (lexParts input.data [] false false))))

/-! ## RPN conversion (`search.rs::to_rpn`) -/

/-- Precedence table: NOT (3, right-assoc), AND (2), OR (1). -/
def tokPrec : SearchToken → Nat × Bool
  | .not => (3, true)
  | .and => (2, false)
  | .or => (1, false)
  | _ => (0, false)

/-- Pop operators with higher (or, for left-assoc, equal) precedence off the
operator stack; returns the popped tokens in pop order and the rest. -/
def rpnPopWhile (pCur : Nat) (rightAssoc : Bool) : List SearchToken → List SearchToken × List SearchToken
  | [] => ([], [])
  | top :: rest =>
    let pTop := (tokPrec top).1
    let shouldPop := if rightAssoc then pCur < pTop else pCur ≤ pTop
    if shouldPop then
      let r := rpnPopWhile pCur rightAssoc rest
      (top :: r.1, r.2)
    else ([], top :: rest)

/-- Main shunting-yard loop; the operator stack has its top at the head. -/
def rpnGo : List SearchToken → List SearchToken → List SearchToken → List SearchToken
  | [], output, ops => output ++ ops
  | tok :: rest, output, ops =>
    if isOperandTok tok then rpnGo rest (output ++ [tok]) ops
    else
      let pr := tokPrec tok
      let r := rpnPopWhile pr.1 pr.2 ops
      rpnGo rest (output ++ r.1) (tok :: r.2)

/-- `search.rs::to_rpn`. -/
def to_rpn (tokens : List SearchToken) : List SearchToken := rpnGo tokens [] []

/-! ## The mask evaluator (`search.rs::build_search_mask_boolean`) -/

/-- Lookup in the per-column text map (a `HashMap` whose keys are unique by
construction, so first match is faithful). -/
def pcLookup (pc : List (String × List String)) (k : String) : Option (List String) :=
  (pc.find? fun e => decide (e.1 = k)).map (·.2)

/-- Lookup in the precomputed per-term mask map. -/
def keyLookup (m : List ((Option String × String) × List Bool))
    (k : Option String × String) : Option (List Bool) :=
  (m.find? fun e => decide (e.1 = k)).map (·.2)

/-- Per-term mask (`search.rs` lines 289-309): a column-scoped term tests the
per-column text, everything else the row-wide text. -/
def buildTermMask (colOpt : Option String) (term : String) (texts : List String)
    (perCol : Option (List (String × List String))) : List Bool :=
  match colOpt.map rlower, perCol with
  | some col, some pc =>
    match pcLookup pc col with
    | some colTexts =>
      (List.range texts.length).map fun i =>
        match colTexts.get? i with
        | some t => !t.isEmpty && strHasSub t term
        | none => false
    | none => List.replicate texts.length false
  | _, _ => texts.map fun t => !t.isEmpty && strHasSub t term

/-- Mask map construction (`search.rs` lines 283-311); keys already present are
skipped. -/
def buildKeyMasks (terms : List (Option String × String)) (texts : List String)
    (perCol : Option (List (String × List String))) :
    List ((Option String × String) × List Bool) :=
  terms.foldl
    (fun acc k =>
      if (keyLookup acc k).isSome then acc
      else acc ++ [(k, buildTermMask k.1 k.2 texts perCol)])
    []

/-- One row's RPN walk (`search.rs` lines 316-343); the boolean stack has its
top at the head and every pop defaults to `false`. -/
def rpnEvalGo (km : List ((Option String × String) × List Bool)) (i : Nat) :
    List SearchToken → List Bool → List Bool
  | [], stack => stack
  | .term col text :: rest, stack =>
    let v := ((keyLookup km (col, text)).bind fun m => m.get? i).getD false
    rpnEvalGo km i rest (v :: stack)
  | .quotedTerm col text :: rest, stack =>
    let v := ((keyLookup km (col, text)).bind fun m => m.get? i).getD false
    rpnEvalGo km i rest (v :: stack)
  | .not :: rest, stack =>
    let a := stack.headD false
    rpnEvalGo km i rest ((!a) :: stack.tail)
  | .and :: rest, stack =>
    let b := stack.headD false
    let s1 := stack.tail
    let a := s1.headD false
    rpnEvalGo km i rest ((a && b) :: s1.tail)
  | .or :: rest, stack =>
    let b := stack.headD false
    let s1 := stack.tail
    let a := s1.headD false
    rpnEvalGo km i rest ((a || b) :: s1.tail)

/-- `search.rs::build_search_mask_boolean`. -/
def build_search_mask_boolean (rpn : List SearchToken)
    (terms : List (Option String × String)) (searchable_text : List String)
    (perCol : Option (List (String × List String))) : List Bool :=
  let km := buildKeyMasks terms searchable_text perCol
  (List.range searchable_text.length).map fun i => (rpnEvalGo km i rpn []).headD false

/-! ## Columnar table model and row text (`search.rs`, `commands/utils.rs`)

A table is the list of its named columns; each cell holds the
`anyvalue_to_search_string` rendering of the stored value (`none` for null).
-/

/-- A columnar table: named columns of per-row optional search strings. -/
def Table := List (String × List (Option String))

/-- `DataFrame::column` / the `column_series` map (column names are unique in
a polars frame, so first match is faithful). -/
def tblFind (t : Table) (name : String) : Option (List (Option String)) :=
  (t.find? fun c => decide (c.1 = name)).map (·.2)

/-- The `column_series_lower` map: keyed by lowercased name, later columns
overwrite earlier ones (`HashMap` collect), hence the reversed search. -/
def tblFindLower (t : Table) (key : String) : Option (List (Option String)) :=
  (t.reverse.find? fun c => decide (rlower c.1 = key)).map (·.2)

/-- `df.height()`: the row count (all columns of a frame share one length). -/
def dfHeight (t : Table) : Nat :=
  match t with
  | [] => 0
  | c :: _ => c.2.length

/-- Append a piece to a row's searchable text with a single-space separator. -/
def appendPiece (entry piece : String) : String :=
  if entry.isEmpty then piece else entry ++ " " ++ piece

/-- `search.rs::build_search_text` helper `build_searchable_text`: concatenate
the lowercase search strings of the scope columns, skipping empty pieces. -/
def build_searchable_text (rowCount : Nat) (searchCols : List String) (t : Table) :
    List String :=
  searchCols.foldl
    (fun acc col =>
      match tblFind t col with
      | none => acc
      | some cells =>
        acc.mapIdx fun i entry =>
          match (cells.get? i).bind id with
          | none => entry
          | some text =>
            let lower := rlower text
            if lower.isEmpty then entry else appendPiece entry lower)
    (List.replicate rowCount "")

/-- `search.rs::ensure_searchable_text`: build lazily on first need; returns
the text, the updated storage and the updated built flag. -/
def ensure_searchable_text (storage : Option (List String)) (built : Bool)
    (rowCount : Nat) (searchCols : List String) (t : Table) :
    List String × Option (List String) × Bool :=
  match storage with
  | some v => (v, some v, built)
  | none =>
    let b := build_searchable_text rowCount searchCols t
    (b, some b, true)

/-- `commands/utils.rs::ensure_column_text_cache`: build the lowercase text
vector of one column (keyed by lowercased name) if not cached yet; a column
missing from the frame yields an all-empty vector. -/
def ensure_column_text_cache (column : String) (t : Table)
    (cache : List (String × List String)) (rowCount : Nat) :
    List (String × List String) :=
  let key := rlower column
  if (pcLookup cache key).isSome then cache
  else
    let colVec : List String :=
      match tblFindLower t key with
      | none => List.replicate rowCount ""
      | some cells =>
        (List.range rowCount).map fun i =>
          match (cells.get? i).bind id with
          | none => ""
          | some text =>
            let lower := rlower text
            if lower.isEmpty then "" else lower
    cache ++ [(key, colVec)]

/-- Overwriting insert into a string-keyed map (`HashMap::insert`). -/
def hmInsert (m : List (String × List String)) (k : String) (v : List String) :
    List (String × List String) :=
  (m.filter fun e => !(decide (e.1 = k))) ++ [(k, v)]

/-- `commands/utils.rs::build_row_search_text`: one row's concatenated text and
single-row per-column map. -/
def build_row_search_text (columnNames : List String) (t : Table) (rowIdx : Nat) :
    String × List (String × List String) :=
  columnNames.foldl
    (fun acc column =>
      match tblFind t column with
      | none => acc
      | some cells =>
        match (cells.get? rowIdx).bind id with
        | none => acc
        | some text =>
          let lower := rlower text
          if lower.isEmpty then acc
          else (appendPiece acc.1 lower, hmInsert acc.2 (rlower column) [lower]))
    ("", [])

/-! ## Flag store (`models.rs::FlagEntry`, `commands/flags.rs::update_flag`) -/

/-- `models.rs::FlagEntry`. -/
structure FlagEntry where
  flag : String
  memo : Option String
  deriving DecidableEq, Repr

/-- Lookup in the flags map (`HashMap<usize, FlagEntry>`, unique keys). -/
def fmLookup (m : List (Nat × FlagEntry)) (k : Nat) : Option FlagEntry :=
  (m.find? fun e => decide (e.1 = k)).map (·.2)

/-- `HashMap::remove` on the flags map. -/
def fmRemove (m : List (Nat × FlagEntry)) (k : Nat) : List (Nat × FlagEntry) :=
  m.filter fun e => !(decide (e.1 = k))

/-- `HashMap::insert` on the flags map (overwrites). -/
def fmInsert (m : List (Nat × FlagEntry)) (k : Nat) (v : FlagEntry) :
    List (Nat × FlagEntry) :=
  fmRemove m k ++ [(k, v)]

/-- The store mutation of `commands/flags.rs::update_flag` (lines 45-61):
remove the entry when flag and memo both trim to empty, else insert the entry
as given. -/
def update_flag (m : List (Nat × FlagEntry)) (rowIndex : Nat) (flag : String)
    (memo : Option String) : List (Nat × FlagEntry) :=
  if (rtrim flag).isEmpty && ((memo.map fun mm => (rtrim mm).isEmpty).getD true) then
    fmRemove m rowIndex
  else fmInsert m rowIndex ⟨flag, memo⟩

/-! ## IOC entries and the CSV layer (`models.rs::IocEntry`, `ioc.rs`) -/

/-- `models.rs::IocEntry`. -/
structure IocEntry where
  flag : String
  tag : String
  query : String
  deriving DecidableEq, Repr

/-- `ioc.rs::prepare_ioc_entries`: normalise the flag, trim tag and query, drop
entries with empty query, stable sort by tag. -/
def prepare_ioc_entries (entries : List IocEntry) : List IocEntry :=
  let prepared := (entries.map fun e =>
      ({ flag := normalize_flag_value e.flag, tag := rtrim e.tag,
         query := rtrim e.query } : IocEntry)).filter
    fun e => !e.query.isEmpty
  stableSortBy (fun a b => !(strOrd a.tag b.tag == Ordering.gt)) prepared

/-- `ioc.rs::write_ioc_csv`, modelled at the CSV record level (the csv crate
round-trips records exactly): a `flag,tag,query` header record followed by one
3-field record per entry. -/
def write_ioc_csv (entries : List IocEntry) : List (List String) :=
  ["flag", "tag", "query"] :: entries.map fun e => [e.flag, e.tag, e.query]

/-- `ioc.rs::read_ioc_csv`, modelled at the CSV record level: skip the header,
trim the three fields, normalise the flag, drop records with empty query. -/
def read_ioc_csv (records : List (List String)) : List IocEntry :=
  (records.drop 1).filterMap fun r =>
    let flagV := rtrim (r.getD 0 "")
    let tag := rtrim (r.getD 1 "")
    let query := rtrim (r.getD 2 "")
    if query.isEmpty then none
    else some { flag := normalize_flag_value flagV, tag := tag, query := query }

/-! ## The sort comparator (`commands/rows.rs` lines 255-295)

`str::parse::<f64>` is modelled exactly: a finite value is kept as the pair
(integer mantissa, power-of-ten exponent), so `fin m e` denotes `m · 10^e`,
and comparison cross-multiplies to a common exponent.  Rounding to binary64
and overflow of huge exponents are not modelled, which is faithful on every
comparison the claims exercise.
-/

/-- A parsed floating-point value; `fin m e` denotes `m · 10^e`, kept exact. -/
inductive FVal where
  | nan
  | inf (neg : Bool)
  | fin (m : Int) (e : Int)
  deriving DecidableEq, Repr

/-- Are all characters ASCII digits? -/
def allDigits (cs : List Char) : Bool := cs.all (·.isDigit)

/-- Numeric value of a digit string. -/
def digitsVal (cs : List Char) : Nat :=
  cs.foldl (fun a c => a * 10 + (c.toNat - 48)) 0

/-- Mantissa of the f64 grammar: `Digit+ ('.' Digit*)? | Digit* '.' Digit+`,
returned as (numerator digits, number of fraction digits). -/
def parseMantissa (cs : List Char) : Option (Nat × Nat) :=
  match chFindIdx (· == '.') cs with
  | none => if cs.isEmpty || !allDigits cs then none else some (digitsVal cs, 0)
  | some p =>
    let ip := cs.take p
    let fp := cs.drop (p + 1)
    if allDigits ip && allDigits fp && !(ip.isEmpty && fp.isEmpty) then
      some (digitsVal (ip ++ fp), fp.length)
    else none

/-- Optionally signed digit string (the exponent of the f64 grammar). -/
def parseSignedDigits (cs : List Char) : Option Int :=
  match cs with
  | '+' :: rest =>
    if rest.isEmpty || !allDigits rest then none else some (Int.ofNat (digitsVal rest))
  | '-' :: rest =>
    if rest.isEmpty || !allDigits rest then none else some (-(Int.ofNat (digitsVal rest)))
  | _ => if cs.isEmpty || !allDigits cs then none else some (Int.ofNat (digitsVal cs))

/-- Split a number at its exponent marker `e`/`E`, if any. -/
def splitAtExp (cs : List Char) : List Char × Option (List Char) :=
  match chFindIdx (fun c => c == 'e' || c == 'E') cs with
  | none => (cs, none)
  | some p => (cs.take p, some (cs.drop (p + 1)))

/-- The numeric branch of the f64 grammar (mantissa with optional exponent),
as (mantissa digits, power-of-ten exponent). -/
def parseNumPart (cs : List Char) : Option (Nat × Int) :=
  let me := splitAtExp cs
  match parseMantissa me.1 with
  | none => none
  | some nf =>
    match me.2 with
    | none => some (nf.1, -(nf.2 : Int))
    | some ecs =>
      match parseSignedDigits ecs with
      | none => none
      | some e => some (nf.1, e - (nf.2 : Int))

/-- Model of Rust `str::parse::<f64>`: optional sign, then case-insensitive
`inf`/`infinity`/`nan` or a decimal number with optional exponent. -/
def parseFVal (s : String) : Option FVal :=
  let cs := s.data
  let sb : Bool × List Char :=
    match cs with
    | '+' :: rest => (false, rest)
    | '-' :: rest => (true, rest)
    | _ => (false, cs)
  let low := sb.2.map Char.toLower
  if low == "inf".data || low == "infinity".data then some (.inf sb.1)
  else if low == "nan".data then some .nan
  else
    match parseNumPart sb.2 with
    | none => none
    | some me2 =>
      some (.fin (if sb.1 then -(me2.1 : Int) else (me2.1 : Int)) me2.2)

/-- Exact comparison of `m1 · 10^e1` with `m2 · 10^e2` by shifting both to the
smaller exponent and comparing integers. -/
def decOrd (m1 e1 m2 e2 : Int) : Ordering :=
  let sh1 := (e1 - min e1 e2).toNat
  let sh2 := (e2 - min e1 e2).toNat
  let a := m1 * (10 : Int) ^ sh1
  let b := m2 * (10 : Int) ^ sh2
  if a < b then .lt else if b < a then .gt else .eq

/-- Model of `f64::partial_cmp`: `none` exactly when a NaN is involved. -/
def fcmp : FVal → FVal → Option Ordering
  | .nan, _ => none
  | _, .nan => none
  | .inf true, .inf true => some .eq
  | .inf true, _ => some .lt
  | .inf false, .inf false => some .eq
  | .inf false, _ => some .gt
  | .fin _ _, .inf true => some .gt
  | .fin _ _, .inf false => some .lt
  | .fin m1 e1, .fin m2 e2 => some (decOrd m1 e1 m2 e2)

/-- Strip thousands separators: trim, then remove every `','` and every
non-breaking space (`commands/rows.rs` lines 259-268). -/
def stripSort (s : String) : String :=
  ⟨(chTrimAux s.data).filter fun c => !(c == ',') && !(c == ' ')⟩

/-- The sort comparator body (`commands/rows.rs` lines 258-292) applied to the
two already-extracted-and-stripped cell values. -/
def sortCmp (desc : Bool) (aS bS : Option String) : Ordering :=
  let aNum := aS.bind parseFVal
  let bNum := bS.bind parseFVal
  if aNum.isSome || bNum.isSome then
    let av := aNum.getD (.inf false)
    let bv := bNum.getD (.inf false)
    let ord := (fcmp av bv).getD .eq
    if desc then ord.swap else ord
  else
    let ord :=
      match aS, bS with
      | some a, some b => strOrd (rlower a) (rlower b)
      | some _, none => Ordering.gt
      | none, some _ => Ordering.lt
      | none, none => Ordering.eq
    if desc then ord.swap else ord

/-- Extraction of the sort value of row `i` from the sort column:
`series.get(i).ok().and_then(anyvalue_to_search_string)` followed by the
separator stripping. -/
def sortVal (cells : List (Option String)) (i : Nat) : Option String :=
  ((cells.get? i).bind id).map stripSort

/-! ## The row-query pipeline (`commands/rows.rs::query_project_rows`) -/

/-- `commands/rows.rs::QueryRowsPayload` (project id omitted: the environment
below already denotes one project's state). -/
structure QueryPayload where
  search : Option String := none
  columns : Option (List String) := none
  flagFilter : Option String := none
  offset : Option Nat := none
  limit : Option Nat := none
  sortKey : Option String := none
  sortDirection : Option String := none

/-- One project's persisted and cached state as observed by a single
`query_project_rows` call. -/
structure QueryEnv where
  table : Table
  flags : List (Nat × FlagEntry)
  iocs : List IocEntry
  cachedSearchable : Option (List String) := none
  cachedIocFlags : Option (List String) := none

/-- A page row as returned to the shell (`models.rs::ProjectRow`; the JSON
`data` record is omitted because no claim mentions it). -/
structure RowOut where
  rowIndex : Nat
  flag : String
  memo : Option String
  deriving DecidableEq, Repr

/-- `commands/rows.rs::QueryRowsResponse`, extended with the cache contents
after the call (the Rust code writes them into `AppState`). -/
structure QueryResult where
  rows : List RowOut
  total_flagged : Nat
  total_rows : Nat
  total_filtered_rows : Nat
  offset : Nat
  newSearchableCache : Option (List String)
  newIocCache : Option (List String)
  deriving DecidableEq, Repr

/-- `commands/rows.rs::matches_flag_filter`. -/
def matches_flag_filter (currentFlag filter : String) : Bool :=
  if filter == "all" then true
  else if filter == "none" then currentFlag.isEmpty
  else if filter == "priority" then
    currentFlag == "suspicious" || currentFlag == "critical"
  else if filter == "safe" || filter == "suspicious" || filter == "critical" then
    currentFlag == filter
  else true

/-- Term/column collection shared by the search block, the IOC rebuild loop and
the memo loop (`commands/rows.rs` lines 136-153, 205-219, 346-362): deduplicate
non-empty term keys and the referenced columns, in order of appearance. -/
def collectTermsCols (tokens : List SearchToken) :
    List (Option String × String) × List String :=
  tokens.foldl
    (fun acc t =>
      match t with
      | .term col text =>
        let key := (col, text)
        let terms := if !text.isEmpty && !(decide (key ∈ acc.1)) then acc.1 ++ [key] else acc.1
        let cols :=
          match col with
          | some c => if decide (c ∈ acc.2) then acc.2 else acc.2 ++ [c]
          | none => acc.2
        (terms, cols)
      | .quotedTerm col text =>
        let key := (col, text)
        let terms := if !text.isEmpty && !(decide (key ∈ acc.1)) then acc.1 ++ [key] else acc.1
        let cols :=
          match col with
          | some c => if decide (c ∈ acc.2) then acc.2 else acc.2 ++ [c]
          | none => acc.2
        (terms, cols)
      | _ => acc)
    ([], [])

/-- The non-synthetic column names of the frame. -/
def queryColumnNames (t : Table) : List String :=
  (t.map (·.1)).filter fun n => !(n == "__rowid")

/-- The user flag vector (`commands/rows.rs` lines 178-183): length-N vector of
normalised user flags. -/
def user_flag_vec (flags : List (Nat × FlagEntry)) (height : Nat) : List String :=
  flags.foldl
    (fun vec e =>
      if e.1 < height then vec.set e.1 (normalize_flag_value e.2.flag) else vec)
    (List.replicate height "")

/-- The initial IOC flag vector (`commands/rows.rs` lines 185-194): the cached
vector when its length matches the row count, else a fresh all-empty vector. -/
def iocVecInit (cached : Option (List String)) (height : Nat) : List String :=
  match cached with
  | some c => if c.length = height then c else List.replicate height ""
  | none => List.replicate height ""

/-- The rebuild trigger (`commands/rows.rs` line 197): rebuild exactly when the
initial vector is entirely empty. -/
def needRebuildIoc (iocVec0 : List String) : Bool :=
  iocVec0.all (·.isEmpty)

/-- One rule's per-row assignment during the rebuild (`commands/rows.rs` lines
240-247): a row receives the rule's normalised flag only when its user flag and
its already-assigned IOC flag are both empty and the rule's mask is true. -/
def applyRuleToVec (userVec iocVec : List String) (mask : List Bool)
    (flagNorm : String) : List String :=
  (List.range iocVec.length).map fun i =>
    let v := iocVec.getD i ""
    if !v.isEmpty || !((userVec.getD i "").isEmpty) then v
    else if mask.getD i false then flagNorm else v

/-- Mutable state threaded through the rebuild loop. -/
structure RebuildState where
  iocVec : List String
  searchable : Option (List String)
  built : Bool
  perCol : List (String × List String)

/-- One iteration of the IOC rebuild loop (`commands/rows.rs` lines 199-248). -/
def rebuildStep (t : Table) (searchCols : List String) (userVec : List String)
    (rowCount : Nat) (st : RebuildState) (e : IocEntry) : RebuildState :=
  let query := rtrim e.query
  if query.isEmpty then st
  else
    let tokens := tokenize_search_query query
    let tc := collectTermsCols tokens
    let perCol := tc.2.foldl (fun c col => ensure_column_text_cache col t c rowCount) st.perCol
    if tc.1.isEmpty then { st with perCol := perCol }
    else
      let rpn := to_rpn tokens
      let est := ensure_searchable_text st.searchable st.built rowCount searchCols t
      let mask := build_search_mask_boolean rpn tc.1 est.1 (some perCol)
      { iocVec := applyRuleToVec userVec st.iocVec mask (normalize_flag_value e.flag),
        searchable := est.2.1, built := est.2.2, perCol := perCol }

/-- The search-mask block (`commands/rows.rs` lines 132-176): trim the search;
an empty search, or one whose token stream has no non-empty term, builds no
mask. -/
def searchMaskBlock (search : Option String) (t : Table) (searchCols : List String)
    (rowCount : Nat) (storage0 : Option (List String)) :
    Option (List Bool) × Option (List String) × Bool × List (String × List String) :=
  match search.map rtrim with
  | none => (none, storage0, false, [])
  | some s =>
    if s.isEmpty then (none, storage0, false, [])
    else
      let tokens := tokenize_search_query s
      let tc := collectTermsCols tokens
      let perCol := tc.2.foldl (fun c col => ensure_column_text_cache col t c rowCount) []
      if tc.1.isEmpty then (none, storage0, false, perCol)
      else
        let rpn := to_rpn tokens
        let est := ensure_searchable_text storage0 false rowCount searchCols t
        let mask := build_search_mask_boolean rpn tc.1 est.1 (some perCol)
        (some mask, est.2.1, est.2.2, perCol)

/-- The validated row-text cache (`commands/rows.rs` lines 118-128): reusable
when its length matches N and some entry is non-empty. -/
def searchableInit (cached : Option (List String)) (height : Nat) :
    Option (List String) :=
  match cached with
  | some c => if c.length = height && c.any (fun s => !s.isEmpty) then some c else none
  | none => none

/-- IOC rules sorted by descending severity rank, ties in original order
(`commands/rows.rs` lines 195-196). -/
def sortedIocsOf (iocs : List IocEntry) : List IocEntry :=
  stableSortBy
    (fun a b =>
      severity_rank (normalize_flag_value b.flag) ≤ severity_rank (normalize_flag_value a.flag))
    iocs

/-- The post-search-block state (mask, row-text storage, built flag, per-column
cache) of one query. -/
def querySearchState (env : QueryEnv) (p : QueryPayload) :
    Option (List Bool) × Option (List String) × Bool × List (String × List String) :=
  let t := env.table
  let height := dfHeight t
  let searchCols := p.columns.getD (queryColumnNames t)
  searchMaskBlock p.search t searchCols height (searchableInit env.cachedSearchable height)

/-- The user flag vector of one query. -/
def queryUserVec (env : QueryEnv) : List String :=
  user_flag_vec env.flags (dfHeight env.table)

/-- The rebuild-loop state after the IOC section of one query: the cached
vector is kept as is unless the rebuild triggers. -/
def queryIocState (env : QueryEnv) (p : QueryPayload) : RebuildState :=
  let t := env.table
  let height := dfHeight t
  let searchCols := p.columns.getD (queryColumnNames t)
  let s := querySearchState env p
  let iocVec0 := iocVecInit env.cachedIocFlags height
  let st1 : RebuildState :=
    { iocVec := iocVec0, searchable := s.2.1, built := s.2.2.1, perCol := s.2.2.2 }
  if needRebuildIoc iocVec0 then
    (sortedIocsOf env.iocs).foldl (rebuildStep t searchCols (queryUserVec env) height) st1
  else st1

/-- The IOC flag vector used by one query. -/
def queryIocVec (env : QueryEnv) (p : QueryPayload) : List String :=
  (queryIocState env p).iocVec

/-- The final flag vector (`commands/rows.rs` lines 297-304): user flag when
non-empty, else IOC flag. -/
def queryFinalVec (env : QueryEnv) (p : QueryPayload) : List String :=
  let userVec := queryUserVec env
  let iocVec := queryIocVec env p
  (List.range (dfHeight env.table)).map fun i =>
    if !((userVec.getD i "").isEmpty) then userVec.getD i "" else iocVec.getD i ""

/-- The sorted index permutation (`commands/rows.rs` lines 255-295). -/
def ordered_indices (p : QueryPayload) (t : Table) (height : Nat) : List Nat :=
  let base := List.range height
  match p.sortKey with
  | none => base
  | some key =>
    match tblFind t key with
    | none => base
    | some cells =>
      let desc := p.sortDirection == some "desc"
      stableSortBy
        (fun a b => !(sortCmp desc (sortVal cells a) (sortVal cells b) == Ordering.gt))
        base

/-- The filtered index list (`commands/rows.rs` lines 306-323): sorted indices
passing both the flag filter and the search mask. -/
def queryFiltered (env : QueryEnv) (p : QueryPayload) : List Nat :=
  let height := dfHeight env.table
  let finalVec := queryFinalVec env p
  let mask := (querySearchState env p).1
  (ordered_indices p env.table height).filter fun idx =>
    (match p.flagFilter with
     | some f => matches_flag_filter (finalVec.getD idx "") f
     | none => true)
    &&
    (match mask with
     | some m => m.getD idx false
     | none => true)

/-- One rule's contribution to the memo-tag list of one page row
(`commands/rows.rs` lines 340-388): append the rule's `[tag]` when its query
is non-empty, has at least one non-empty term, matches the single row, and the
trimmed tag is non-empty and not yet collected. -/
def memoTagStep (columnNames : List String) (t : Table) (rowIdx : Nat)
    (memoTags : List String) (e : IocEntry) : List String :=
  let query := rtrim e.query
  if query.isEmpty then memoTags
  else
    let tokens := tokenize_search_query query
    let tc := collectTermsCols tokens
    if tc.1.isEmpty then memoTags
    else
      let rpn := to_rpn tokens
      let rt := build_row_search_text columnNames t rowIdx
      let singleMask := build_search_mask_boolean rpn tc.1 [rt.1] (some rt.2)
      if singleMask.headD false then
        let tag := rtrim e.tag
        if tag.isEmpty then memoTags
        else
          let token := "[" ++ tag ++ "]"
          if decide (token ∈ memoTags) then memoTags else memoTags ++ [token]
      else memoTags

/-- The memo-tag collection of one page row (`commands/rows.rs` lines 339-389):
the `[tag]` of each rule with a non-empty query and a non-empty trimmed tag
whose query matches the single row, deduplicated.  (The source also feeds the
per-column text cache here; those insertions are unused afterwards and carry no
observable effect, so they are not threaded.) -/
def collectMemoTags (iocs : List IocEntry) (columnNames : List String) (t : Table)
    (rowIdx : Nat) : List String :=
  iocs.foldl (memoTagStep columnNames t rowIdx) []

/-- One step of appending a collected tag to the memo (`commands/rows.rs`
lines 391-396): skip a tag already contained, single-space separator. -/
def appendTagStep (memo tag : String) : String :=
  if strHasSub memo tag then memo
  else
    let sep := if !memo.isEmpty && !(chEnds memo ' ') then memo ++ " " else memo
    sep ++ tag

/-- Append collected tags to the memo (`commands/rows.rs` lines 390-397). -/
def appendTags (userMemo : String) (tags : List String) : String :=
  tags.foldl appendTagStep userMemo

/-- One materialised page row (`commands/rows.rs` lines 331-408): IOC tags are
appended exactly when the final flag equals the IOC-vector flag. -/
def composeRow (flags : List (Nat × FlagEntry)) (iocs : List IocEntry)
    (columnNames : List String) (t : Table) (finalVec iocVec : List String)
    (rowIdx : Nat) : RowOut :=
  let userMemo := ((fmLookup flags rowIdx).bind (·.memo)).getD ""
  let finalMemo :=
    if !iocs.isEmpty && (finalVec.getD rowIdx "") == (iocVec.getD rowIdx "") then
      appendTags userMemo (collectMemoTags iocs columnNames t rowIdx)
    else userMemo
  { rowIndex := rowIdx, flag := finalVec.getD rowIdx "",
    memo := if finalMemo.isEmpty then none else some finalMemo }

/-- `commands/rows.rs::query_project_rows` (the pure row-query pipeline; I/O
errors such as a missing project are outside the model). -/
def query_project_rows (env : QueryEnv) (p : QueryPayload) : QueryResult :=
  let t := env.table
  let height := dfHeight t
  let columnNames := queryColumnNames t
  let offset := p.offset.getD 0
  let limit := max (p.limit.getD 250) 1
  let iocSt := queryIocState env p
  let iocVec := iocSt.iocVec
  let needRebuild := needRebuildIoc (iocVecInit env.cachedIocFlags height)
  let newIocCache := if needRebuild then some iocVec else env.cachedIocFlags
  let finalVec := queryFinalVec env p
  let filtered := queryFiltered env p
  let totalFlagged :=
    (filtered.filter fun idx => !((rtrim (finalVec.getD idx "")).isEmpty)).length
  let pageIdx := (filtered.drop offset).take limit
  let pageRows := pageIdx.map fun i => composeRow env.flags env.iocs columnNames t finalVec iocVec i
  let newSearchable := if iocSt.built then iocSt.searchable else env.cachedSearchable
  { rows := pageRows, total_flagged := totalFlagged, total_rows := height,
    total_filtered_rows := filtered.length, offset := offset,
    newSearchableCache := newSearchable, newIocCache := newIocCache }

/-! ## Concrete instances used by witnesses and counterexamples -/

/-- A one-row, one-column table whose cell text is `malware`. -/
def exOneRow : Table := [("c", [some "malware"])]

/-- A one-row, one-column table whose cell text is `abc`. -/
def exAbc : Table := [("c", [some "abc"])]

/-- The numeric-sort table of the spec's scenario 5. -/
def exScore : Table := [("score", [some "1,000", some "200", some "30"])]

/-- An environment with no flags, rules or caches over `exOneRow`. -/
def envPlain : QueryEnv := ⟨exOneRow, [], [], none, none⟩

/-- An environment with no flags, rules or caches over `exAbc`. -/
def envAbc : QueryEnv := ⟨exAbc, [], [], none, none⟩

/-- A stale-cache environment: the cached IOC vector flags row 0 `critical`,
and the user has since flagged row 0 `critical` with memo `benign`. -/
def envStale : QueryEnv :=
  ⟨exOneRow, [(0, ⟨"critical", some "benign"⟩)], [⟨"critical", "mal", "malware"⟩],
   none, some ["critical"]⟩

/-- An environment whose cached IOC vector has matching length but only empty
entries, with one matching rule. -/
def envEmptyCache : QueryEnv :=
  ⟨exOneRow, [], [⟨"critical", "mal", "malware"⟩], none, some [""]⟩

/-- An environment with a single matching IOC rule whose flag is empty. -/
def envEmptyFlagRule : QueryEnv := ⟨exOneRow, [], [⟨"", "mal", "malware"⟩], none, none⟩

/-- An environment whose cached IOC vector has matching length and a non-empty
entry. -/
def envCachedIoc : QueryEnv := ⟨exOneRow, [], [], none, some ["critical"]⟩

/-! ## Helper lemmas -/

theorem getD_map_range (f : Nat → α) (n i : Nat) (d : α) (h : i < n) :
    ((List.range n).map f).getD i d = f i := by
  simp [List.getD_eq_getElem?_getD, List.getElem?_map, List.getElem?_range, h]

theorem getD_map_range_ge (f : Nat → α) (n i : Nat) (d : α) (h : ¬ i < n) :
    ((List.range n).map f).getD i d = d := by
  have hn : (List.range n).length ≤ i := by simpa using Nat.le_of_not_lt h
  have : ((List.range n).map f)[i]? = none := by
    apply List.getElem?_eq_none
    simpa using hn
  simp [List.getD_eq_getElem?_getD, this]

theorem getD_ge (l : List α) (i : Nat) (d : α) (h : l.length ≤ i) : l.getD i d = d := by
  simp [List.getD_eq_getElem?_getD, List.getElem?_eq_none h]

theorem map_range_eq_replicate (n : Nat) (b : α) (f : Nat → α)
    (hf : ∀ i < n, f i = b) : (List.range n).map f = List.replicate n b := by
  apply List.ext_getElem?
  intro i
  by_cases h : i < n
  · simp [List.getElem?_map, List.getElem?_range, h, List.getElem?_replicate, hf i h]
  · have h1 : ((List.range n).map f)[i]? = none := by
      apply List.getElem?_eq_none
      simpa using Nat.le_of_not_lt h
    have h2 : (List.replicate n b)[i]? = none := by
      apply List.getElem?_eq_none
      simpa using Nat.le_of_not_lt h
    rw [h1, h2]

theorem isEmpty_false_ne (s : String) (h : s.isEmpty = false) : s ≠ "" := by
  intro he
  subst he
  rw [(String.isEmpty_iff "").mpr rfl] at h
  cases h

theorem ne_isEmpty_false (s : String) (h : ¬ s = "") : s.isEmpty = false := by
  cases hq : s.isEmpty
  · rfl
  · exact absurd ((String.isEmpty_iff s).mp hq) h

theorem all_empty_getD (l : List String) (h : l.all (·.isEmpty) = true) (i : Nat) :
    l.getD i "" = "" := by
  rw [List.getD_eq_getElem?_getD]
  cases hq : l[i]? with
  | none => rfl
  | some v =>
    have hv : v ∈ l := List.getElem?_mem hq
    have := List.all_eq_true.mp h v hv
    simpa using (String.isEmpty_iff v).mp (by simpa using this)

theorem length_applyRuleToVec (u v : List String) (m : List Bool) (f : String) :
    (applyRuleToVec u v m f).length = v.length := by
  simp [applyRuleToVec]

theorem foldl_userflag_length (flags : List (Nat × FlagEntry)) (height : Nat)
    (init : List String) :
    (flags.foldl
      (fun vec e => if e.1 < height then vec.set e.1 (normalize_flag_value e.2.flag) else vec)
      init).length = init.length := by
  induction flags generalizing init with
  | nil => rfl
  | cons hd tl ih =>
    rw [List.foldl_cons, ih]
    split <;> simp

theorem length_user_flag_vec (flags : List (Nat × FlagEntry)) (height : Nat) :
    (user_flag_vec flags height).length = height := by
  unfold user_flag_vec
  rw [foldl_userflag_length]
  simp

theorem userVec_lt (env : QueryEnv) (i : Nat)
    (hu : ((queryUserVec env).getD i "").isEmpty = false) : i < dfHeight env.table := by
  by_contra h
  have hlen : (queryUserVec env).length = dfHeight env.table := length_user_flag_vec _ _
  have : (queryUserVec env).getD i "" = "" := by
    apply getD_ge
    omega
  rw [this] at hu
  rw [(String.isEmpty_iff "").mpr rfl] at hu
  cases hu

theorem queryFinalVec_getD (env : QueryEnv) (p : QueryPayload) (i : Nat)
    (h : i < dfHeight env.table) :
    (queryFinalVec env p).getD i "" =
      if ((queryUserVec env).getD i "").isEmpty then (queryIocVec env p).getD i ""
      else (queryUserVec env).getD i "" := by
  unfold queryFinalVec
  rw [getD_map_range _ _ _ _ h]
  cases hc : ((queryUserVec env).getD i "").isEmpty <;> rfl

theorem applyRule_userflagged (u v : List String) (m : List Bool) (f : String) (i : Nat)
    (hu : (u.getD i "").isEmpty = false) :
    (applyRuleToVec u v m f).getD i "" = v.getD i "" := by
  by_cases h : i < v.length
  · unfold applyRuleToVec
    rw [getD_map_range _ _ _ _ h]
    simp only [hu, Bool.not_false, Bool.or_true, if_true]
  · rw [getD_ge _ _ _ (by rw [length_applyRuleToVec]; omega), getD_ge _ _ _ (by omega)]

theorem rebuildStep_userflagged (t : Table) (sc : List String) (u : List String)
    (rc : Nat) (st : RebuildState) (e : IocEntry) (i : Nat)
    (hu : (u.getD i "").isEmpty = false) :
    (rebuildStep t sc u rc st e).iocVec.getD i "" = st.iocVec.getD i "" := by
  unfold rebuildStep
  dsimp only
  split
  · rfl
  · split
    · rfl
    · exact applyRule_userflagged _ _ _ _ _ hu

theorem rebuild_foldl_userflagged (rules : List IocEntry) (t : Table) (sc : List String)
    (u : List String) (rc : Nat) (st : RebuildState) (i : Nat)
    (hu : (u.getD i "").isEmpty = false) :
    (rules.foldl (rebuildStep t sc u rc) st).iocVec.getD i "" = st.iocVec.getD i "" := by
  induction rules generalizing st with
  | nil => rfl
  | cons hd tl ih =>
    rw [List.foldl_cons, ih, rebuildStep_userflagged]
    exact hu

theorem queryIocVec_userflagged (env : QueryEnv) (p : QueryPayload) (i : Nat)
    (hu : ((queryUserVec env).getD i "").isEmpty = false) :
    (queryIocVec env p).getD i "" =
      (iocVecInit env.cachedIocFlags (dfHeight env.table)).getD i "" := by
  unfold queryIocVec queryIocState
  dsimp only
  split
  · exact rebuild_foldl_userflagged _ _ _ _ _ _ _ hu
  · rfl

theorem fmLookup_remove (m : List (Nat × FlagEntry)) (k : Nat) :
    fmLookup (fmRemove m k) k = none := by
  induction m with
  | nil => rfl
  | cons hd tl ih =>
    by_cases h : hd.1 = k
    · have hstep : fmRemove (hd :: tl) k = fmRemove tl k := by
        simp [fmRemove, List.filter_cons, h]
      rw [hstep]
      exact ih
    · have hstep : fmRemove (hd :: tl) k = hd :: fmRemove tl k := by
        simp [fmRemove, List.filter_cons, h]
      rw [hstep]
      unfold fmLookup
      rw [List.find?_cons_of_neg _ (by simp [h])]
      exact ih

theorem fmLookup_insert (m : List (Nat × FlagEntry)) (k : Nat) (v : FlagEntry) :
    fmLookup (fmInsert m k v) k = some v := by
  have h1 : (fmRemove m k).find? (fun e => decide (e.1 = k)) = none := by
    have := fmLookup_remove m k
    unfold fmLookup at this
    exact Option.map_eq_none'.mp this
  unfold fmInsert fmLookup
  rw [List.find?_append, h1]
  simp

theorem getD_get?_replicate_false (n i : Nat) :
    ((List.replicate n (false : Bool)).get? i).getD false = false := by
  rw [List.get?_eq_getElem?]
  by_cases h : i < n
  · simp [List.getElem?_replicate, h]
  · rw [List.getElem?_eq_none (by simpa using Nat.le_of_not_lt h)]
    rfl

theorem chAtHead_refl (n : List Char) : chAtHead n n = true := by
  induction n with
  | nil => rfl
  | cons h t ih => simp [chAtHead, ih]

theorem chAtHead_mono (n : List Char) :
    ∀ (h e : List Char), chAtHead n h = true → chAtHead n (h ++ e) = true := by
  induction n with
  | nil => intro h e _; rfl
  | cons a as ih =>
    intro h e hh
    cases h with
    | nil => cases hh
    | cons b bs =>
      simp only [chAtHead, Bool.and_eq_true] at hh
      simp only [List.cons_append, chAtHead, Bool.and_eq_true]
      exact ⟨hh.1, ih bs e hh.2⟩

theorem chSubTest_empty (l : List Char) : chSubTest [] l = true := by
  cases l with
  | nil => rfl
  | cons h t => simp [chSubTest, chAtHead]

theorem chSubTest_append (n : List Char) :
    ∀ (h e : List Char), chSubTest n h = true → chSubTest n (h ++ e) = true := by
  intro h
  induction h with
  | nil =>
    intro e hh
    have hn : n = [] := by
      cases n with
      | nil => rfl
      | cons a as => cases hh
    subst hn
    exact chSubTest_empty e
  | cons hd tl ih =>
    intro e hh
    simp only [chSubTest, Bool.or_eq_true] at hh
    rcases hh with h1 | h2
    · simp only [List.cons_append, chSubTest, Bool.or_eq_true]
      exact Or.inl (chAtHead_mono n (hd :: tl) e h1)
    · simp only [List.cons_append, chSubTest, Bool.or_eq_true]
      exact Or.inr (ih e h2)

theorem chSubTest_suffix (n : List Char) : ∀ h : List Char, chSubTest n (h ++ n) = true := by
  intro h
  induction h with
  | nil =>
    cases n with
    | nil => rfl
    | cons a as =>
      simp only [List.nil_append, chSubTest, Bool.or_eq_true]
      exact Or.inl (chAtHead_refl (a :: as))
  | cons hd tl ih =>
    simp only [List.cons_append, chSubTest, Bool.or_eq_true]
    exact Or.inr ih

theorem strHasSub_append (s e needle : String) (h : strHasSub s needle = true) :
    strHasSub (s ++ e) needle = true := by
  unfold strHasSub at h ⊢
  rw [String.data_append]
  exact chSubTest_append _ _ _ h

theorem strHasSub_self_suffix (s needle : String) : strHasSub (s ++ needle) needle = true := by
  unfold strHasSub
  rw [String.data_append]
  exact chSubTest_suffix _ _

theorem appendTags_cons (memo hd : String) (tl : List String) :
    appendTags memo (hd :: tl) = appendTags (appendTagStep memo hd) tl := rfl

theorem appendTagStep_mono (memo tag token : String) (h : strHasSub memo token = true) :
    strHasSub (appendTagStep memo tag) token = true := by
  unfold appendTagStep
  split
  · exact h
  · dsimp only
    split
    · exact strHasSub_append _ _ _ (strHasSub_append _ _ _ h)
    · exact strHasSub_append _ _ _ h

theorem appendTagStep_self (memo token : String) :
    strHasSub (appendTagStep memo token) token = true := by
  unfold appendTagStep
  split
  · next h => exact h
  · dsimp only
    split
    · exact strHasSub_self_suffix _ _
    · exact strHasSub_self_suffix _ _

theorem appendTags_mono (tags : List String) :
    ∀ memo token : String, strHasSub memo token = true →
      strHasSub (appendTags memo tags) token = true := by
  induction tags with
  | nil => exact fun _ _ h => h
  | cons hd tl ih =>
    intro memo token h
    rw [appendTags_cons]
    exact ih _ _ (appendTagStep_mono _ _ _ h)

theorem appendTags_contains (tags : List String) :
    ∀ memo token : String, token ∈ tags →
      strHasSub (appendTags memo tags) token = true := by
  induction tags with
  | nil => intro _ _ h; cases h
  | cons hd tl ih =>
    intro memo token h
    rw [appendTags_cons]
    rcases List.mem_cons.mp h with h1 | h2
    · subst h1
      exact appendTags_mono tl _ _ (appendTagStep_self _ _)
    · exact ih _ _ h2

theorem memoTagStep_preserve (cn : List String) (t : Table) (i : Nat)
    (acc : List String) (e : IocEntry) (token : String) (h : token ∈ acc) :
    token ∈ memoTagStep cn t i acc e := by
  unfold memoTagStep
  dsimp only
  split
  · exact h
  · split
    · exact h
    · split
      · split
        · exact h
        · split
          · exact h
          · exact List.mem_append_left _ h
      · exact h

theorem memoTagStep_adds (cn : List String) (t : Table) (i : Nat)
    (acc : List String) (e : IocEntry)
    (hq : (rtrim e.query).isEmpty = false)
    (hterms : ((collectTermsCols (tokenize_search_query (rtrim e.query))).1).isEmpty = false)
    (hmask : (build_search_mask_boolean (to_rpn (tokenize_search_query (rtrim e.query)))
        (collectTermsCols (tokenize_search_query (rtrim e.query))).1
        [(build_row_search_text cn t i).1]
        (some (build_row_search_text cn t i).2)).headD false = true)
    (htag : (rtrim e.tag).isEmpty = false) :
    ("[" ++ rtrim e.tag ++ "]") ∈ memoTagStep cn t i acc e := by
  unfold memoTagStep
  dsimp only
  simp only [hq, hterms, hmask, htag, Bool.false_eq_true, if_false, if_true]
  split
  · next hmem => exact of_decide_eq_true hmem
  · exact List.mem_append_right _ (List.mem_singleton.mpr rfl)

theorem collectTags_foldl_preserve (cn : List String) (t : Table) (i : Nat)
    (l : List IocEntry) :
    ∀ (acc : List String) (token : String), token ∈ acc →
      token ∈ l.foldl (memoTagStep cn t i) acc := by
  induction l with
  | nil => intro acc token h; exact h
  | cons hd tl ih =>
    intro acc token h
    rw [List.foldl_cons]
    exact ih _ _ (memoTagStep_preserve _ _ _ _ _ _ h)

theorem collectMemoTags_mem (cn : List String) (t : Table) (i : Nat)
    (iocs : List IocEntry) (e : IocEntry) (he : e ∈ iocs)
    (hq : (rtrim e.query).isEmpty = false)
    (hterms : ((collectTermsCols (tokenize_search_query (rtrim e.query))).1).isEmpty = false)
    (hmask : (build_search_mask_boolean (to_rpn (tokenize_search_query (rtrim e.query)))
        (collectTermsCols (tokenize_search_query (rtrim e.query))).1
        [(build_row_search_text cn t i).1]
        (some (build_row_search_text cn t i).2)).headD false = true)
    (htag : (rtrim e.tag).isEmpty = false) :
    ("[" ++ rtrim e.tag ++ "]") ∈ collectMemoTags iocs cn t i := by
  unfold collectMemoTags
  have haux : ∀ (l : List IocEntry) (acc : List String), e ∈ l →
      ("[" ++ rtrim e.tag ++ "]") ∈ l.foldl (memoTagStep cn t i) acc := by
    intro l
    induction l with
    | nil => intro acc h; cases h
    | cons hd tl ih =>
      intro acc hmem
      rw [List.foldl_cons]
      rcases List.mem_cons.mp hmem with h1 | h2
      · subst h1
        exact collectTags_foldl_preserve cn t i tl _ _
          (memoTagStep_adds cn t i acc e hq hterms hmask htag)
      · exact ih _ h2
  exact haux iocs [] he

theorem normalize_vals (x : String) :
    normalize_flag_value x = "" ∨ normalize_flag_value x = "safe"
    ∨ normalize_flag_value x = "suspicious" ∨ normalize_flag_value x = "critical" := by
  unfold normalize_flag_value
  dsimp only
  split_ifs <;> simp

theorem normalize_fix_trim (x : String) (h : normalize_flag_value x = x) : rtrim x = x := by
  rcases normalize_vals x with h1 | h1 | h1 | h1 <;> (rw [h] at h1; rw [h1]; decide)

theorem read_write_filterMap (l : List IocEntry) :
    read_ioc_csv (write_ioc_csv l) = l.filterMap fun e =>
      if (rtrim e.query).isEmpty then none
      else some ⟨normalize_flag_value (rtrim e.flag), rtrim e.tag, rtrim e.query⟩ := by
  unfold read_ioc_csv write_ioc_csv
  rw [List.drop_succ_cons, List.drop_zero, List.filterMap_map]
  rfl

theorem all_chTrimAux (p : Char → Bool) (cs : List Char) (h : cs.all p = true) :
    (chTrimAux cs).all p = true := by
  rw [List.all_eq_true] at h ⊢
  intro x hx
  apply h
  unfold chTrimAux at hx
  have hx1 := List.mem_reverse.mp hx
  have hx2 := (List.dropWhile_sublist _).subset hx1
  have hx3 := List.mem_reverse.mp hx2
  exact (List.dropWhile_sublist _).subset hx3

theorem lexParts_ops : ∀ (cs buf : List Char) (inQ ap : Bool),
    (cs.all fun c => chIsWs c || c == '|') = true →
    (chTrimAux buf).isEmpty = true →
    inQ = false →
    ∀ pq ∈ lexParts cs buf inQ ap, pq = ("|", false) := by
  intro cs buf inQ ap
  induction cs, buf, inQ, ap using lexParts.induct with
  | case1 buf inQ x t ht =>
    intro _ hbuf _ pq hpq
    rw [List.isEmpty_iff] at hbuf
    simp [lexParts, hbuf] at hpq
  | case2 buf inQ x t ht =>
    intro _ hbuf _
    exact absurd hbuf ht
  | case3 rest buf x ih =>
    intro _ _ h3
    cases h3
  | case4 rest buf inQ x hinQ ih =>
    intro h1 _ _
    simp only [List.all_cons, Bool.and_eq_true] at h1
    exact absurd h1.1 (by decide)
  | case5 rest buf afterPipe ih =>
    intro _ _ h3
    cases h3
  | case6 rest buf inQ hinQ ih =>
    intro h1 h2 h3 pq hpq
    rw [Bool.not_eq_true] at hinQ
    subst hinQ
    simp only [lexParts, Bool.false_eq_true, if_false, if_true] at hpq
    simp only [List.all_cons, Bool.and_eq_true] at h1
    exact ih h1.2 h2 rfl pq hpq
  | case7 rest buf inQ afterPipe hinQ hap ih =>
    intro h1 h2 h3 pq hpq
    rw [Bool.not_eq_true] at hinQ hap
    subst hinQ
    subst hap
    have hred : lexParts ('|' :: rest) buf false false
        = ("|", false) :: lexParts rest [] false true := by
      simp [lexParts, h2]
    rw [hred] at hpq
    simp only [List.all_cons, Bool.and_eq_true] at h1
    rcases List.mem_cons.mp hpq with h0 | h0
    · exact h0
    · exact ih h1.2 (by decide) rfl pq h0
  | case8 c rest buf x hq hp hws ih =>
    intro _ _ h3
    cases h3
  | case9 c rest buf inQ x hq hp hws hinQ ih =>
    intro h1 h2 h3 pq hpq
    rw [Bool.not_eq_true] at hinQ
    subst hinQ
    have hcs : c = ' ' ∨ c = '\t' ∨ c = '\r' ∨ c = '\n' := by
      unfold chIsWs Char.isWhitespace at hws
      simp at hws
      tauto
    have hred : lexParts (c :: rest) buf false x = lexParts rest [] false false := by
      rcases hcs with hc | hc | hc | hc <;> subst hc <;>
        simp [lexParts, chIsWs, Char.isWhitespace, h2]
    rw [hred] at hpq
    simp only [List.all_cons, Bool.and_eq_true] at h1
    exact ih h1.2 (by decide) rfl pq hpq
  | case10 c rest buf inQ x hq hp hws ih =>
    intro h1 _ _
    simp only [List.all_cons, Bool.and_eq_true] at h1
    have hc := h1.1
    rw [Bool.or_eq_true] at hc
    rcases hc with hc | hc
    · exact absurd hc (by simpa using hws)
    · exact absurd (of_decide_eq_true hc) hp

theorem mergeColPhrase_ops : ∀ ps : List (String × Bool),
    (∀ pq ∈ ps, pq = ("|", false)) → mergeColPhrase ps = ps := by
  intro ps
  induction ps using mergeColPhrase.induct with
  | case1 => intro _; rfl
  | case2 p => intro _; rfl
  | case3 part q1 phrase q2 rest hcond ih =>
    intro h
    have h1 := h (part, q1) (by simp)
    have hpart : part = "|" := congrArg Prod.fst h1
    rw [hpart] at hcond
    simp only [Bool.and_eq_true] at hcond
    exact absurd hcond.1.2 (by decide)
  | case4 part q1 phrase q2 rest hcond ih =>
    intro h
    simp only [mergeColPhrase]
    rw [if_neg hcond]
    rw [ih fun pq hpq => h pq (List.mem_cons_of_mem _ hpq)]

theorem mapParts_ops (ps : List (String × Bool)) (h : ∀ pq ∈ ps, pq = ("|", false)) :
    ∀ tok ∈ mapParts ps, tok = SearchToken.or := by
  intro tok htok
  unfold mapParts at htok
  rcases List.mem_flatMap.mp htok with ⟨pq, hpq, htok2⟩
  rw [h pq hpq] at htok2
  have hred : partToTokens ("|", false).1 ("|", false).2 = [SearchToken.or] := rfl
  rw [hred] at htok2
  simpa using htok2

theorem carryGo_ops : ∀ (l : List SearchToken) (last carry : Option String),
    (∀ tok ∈ l, tok = SearchToken.or) →
    ∀ tok ∈ carryGo last carry l, tok = SearchToken.or := by
  intro l
  induction l with
  | nil => intro _ _ _ tok htok; cases htok
  | cons hd tl ih =>
    intro last carry h tok htok
    have hhd := h hd (List.mem_cons_self hd tl)
    subst hhd
    rw [show carryGo last carry (.or :: tl) = .or :: carryGo last last tl from rfl] at htok
    rcases List.mem_cons.mp htok with h1 | h2
    · exact h1
    · exact ih last last (fun t ht => h t (List.mem_cons_of_mem _ ht)) tok h2

theorem insertAnd_ops : ∀ l : List SearchToken,
    (∀ tok ∈ l, tok = SearchToken.or) → insertImplicitAnd l = l := by
  intro l
  induction l using insertImplicitAnd.induct with
  | case1 => intro _; rfl
  | case2 t => intro _; rfl
  | case3 a b rest hcond ih =>
    intro h
    have ha := h a (List.mem_cons_self a _)
    rw [ha] at hcond
    simp [isOperandTok] at hcond
  | case4 a b rest hcond ih =>
    intro h
    simp only [insertImplicitAnd]
    rw [if_neg hcond]
    rw [ih fun t ht => h t (List.mem_cons_of_mem _ ht)]

theorem tokenize_ops (s : String)
    (h : (s.data.all fun c => chIsWs c || c == '|') = true) :
    ∀ tok ∈ tokenize_search_query s, tok = SearchToken.or := by
  unfold tokenize_search_query applyColumnCarry
  have hlex := lexParts_ops s.data [] false false h (by decide) rfl
  rw [mergeColPhrase_ops _ hlex]
  have hmap := mapParts_ops _ hlex
  have hcarry := carryGo_ops _ none none hmap
  rw [insertAnd_ops _ hcarry]
  exact hcarry

theorem collectTermsCols_ops (toks : List SearchToken)
    (h : ∀ tok ∈ toks, tok = SearchToken.or) : collectTermsCols toks = ([], []) := by
  unfold collectTermsCols
  have haux : ∀ (l : List SearchToken) (acc : List (Option String × String) × List String),
      (∀ tok ∈ l, tok = SearchToken.or) →
      (l.foldl
        (fun acc t =>
          match t with
          | .term col text =>
            let key := (col, text)
            let terms :=
              if !text.isEmpty && !(decide (key ∈ acc.1)) then acc.1 ++ [key] else acc.1
            let cols :=
              match col with
              | some c => if decide (c ∈ acc.2) then acc.2 else acc.2 ++ [c]
              | none => acc.2
            (terms, cols)
          | .quotedTerm col text =>
            let key := (col, text)
            let terms :=
              if !text.isEmpty && !(decide (key ∈ acc.1)) then acc.1 ++ [key] else acc.1
            let cols :=
              match col with
              | some c => if decide (c ∈ acc.2) then acc.2 else acc.2 ++ [c]
              | none => acc.2
            (terms, cols)
          | _ => acc) acc) = acc := by
    intro l
    induction l with
    | nil => intro acc _; rfl
    | cons hd tl ih =>
      intro acc hh
      have hhd := hh hd (List.mem_cons_self hd tl)
      subst hhd
      rw [List.foldl_cons]
      exact ih acc fun t ht => hh t (List.mem_cons_of_mem _ ht)
  exact haux toks ([], []) h

theorem length_insSorted (le : α → α → Bool) (a : α) :
    ∀ l : List α, (insSorted le a l).length = l.length + 1 := by
  intro l
  induction l with
  | nil => rfl
  | cons b bs ih =>
    unfold insSorted
    split
    · simp [ih]
    · simp

theorem length_stableSortBy (le : α → α → Bool) (l : List α) :
    (stableSortBy le l).length = l.length := by
  unfold stableSortBy
  have haux : ∀ (m : List α) (acc : List α),
      (m.foldl (fun acc a => insSorted le a acc) acc).length = acc.length + m.length := by
    intro m
    induction m with
    | nil => intro acc; simp
    | cons b bs ih =>
      intro acc
      rw [List.foldl_cons, ih, length_insSorted]
      simp only [List.length_cons]
      omega
  rw [haux l []]
  simp

theorem length_ordered_indices (p : QueryPayload) (t : Table) (h : Nat) :
    (ordered_indices p t h).length = h := by
  unfold ordered_indices
  dsimp only
  split
  · simp
  · split
    · simp
    · rw [length_stableSortBy]
      simp

/-! ## Claims -/

/-- C1: for every row, the final flag equals the user flag when the normalised
user flag is non-empty and otherwise equals the IOC flag; during the IOC
vector rebuild a rule's flag is assigned only to rows whose user flag and
already-assigned IOC flag are both empty (and only where the rule's mask is
true); and every response row carries the final-vector flag. -/
theorem C1_final_flag_resolution :
    (∀ (env : QueryEnv) (p : QueryPayload) (i : Nat), i < dfHeight env.table →
      (queryFinalVec env p).getD i "" =
        (if ((queryUserVec env).getD i "").isEmpty then (queryIocVec env p).getD i ""
         else (queryUserVec env).getD i ""))
    ∧ (∀ (userVec iocVec : List String) (mask : List Bool) (flagNorm : String) (i : Nat),
        (applyRuleToVec userVec iocVec mask flagNorm).getD i "" ≠ iocVec.getD i "" →
          userVec.getD i "" = "" ∧ iocVec.getD i "" = "" ∧ mask.getD i false = true
            ∧ (applyRuleToVec userVec iocVec mask flagNorm).getD i "" = flagNorm)
    ∧ (∀ (flags : List (Nat × FlagEntry)) (iocs : List IocEntry) (cn : List String)
        (t : Table) (fv iv : List String) (i : Nat),
        (composeRow flags iocs cn t fv iv i).flag = fv.getD i "") := by
  refine ⟨fun env p i h => queryFinalVec_getD env p i h, ?_, fun _ _ _ _ _ _ _ => rfl⟩
  intro u v m f i hne
  by_cases hlen : i < v.length
  · unfold applyRuleToVec at hne ⊢
    rw [getD_map_range _ _ _ _ hlen] at hne ⊢
    dsimp only at hne ⊢
    simp only [List.getD_eq_getElem?_getD] at hne ⊢
    rcases hv : (v[i]?.getD "").isEmpty with _ | _
    · simp at hne
      exact absurd hne.1 (by simp [hv])
    · rcases hu : (u[i]?.getD "").isEmpty with _ | _
      · simp at hne
        exact absurd hne.2.1 (by simp [hu])
      · rcases hm : m[i]?.getD false with _ | _
        · simp at hne
          exact absurd hne.2.2.1 (by simp [hm])
        · exact ⟨(String.isEmpty_iff _).mp hu, (String.isEmpty_iff _).mp hv, rfl, by simp⟩
  · rw [getD_ge _ _ _ (by rw [length_applyRuleToVec]; omega),
      getD_ge _ _ _ (by omega)] at hne
    exact absurd rfl hne

/-- Witness for C1 at concrete inputs. -/
theorem C1_final_flag_resolution_witness :
    ((0 : Nat) < dfHeight envPlain.table
      ∧ (queryFinalVec envPlain {}).getD 0 "" =
          (if ((queryUserVec envPlain).getD 0 "").isEmpty then (queryIocVec envPlain {}).getD 0 ""
           else (queryUserVec envPlain).getD 0 ""))
    ∧ ((applyRuleToVec [""] [""] [true] "critical").getD 0 "" ≠ [""].getD 0 ""
      ∧ (applyRuleToVec [""] [""] [true] "critical").getD 0 "" = "critical") :=
  ⟨⟨by decide, C1_final_flag_resolution.1 envPlain {} 0 (by decide)⟩,
   ⟨by decide, (C1_final_flag_resolution.2.1 [""] [""] [true] "critical" 0 (by decide)).2.2.2⟩⟩

/-- C3 (amended): in the carry-over pass, Or records the column of the last
operand, a following bare operand inherits the recorded column (consuming it),
the carry survives Not and is cleared by And; but an operand that specifies its
own column does NOT clear a pending carry — it only updates the last-operand
column, leaving the carry in place. -/
theorem C3_carry_pass :
    ∀ (last carry : Option String) (c text : String) (rest : List SearchToken),
      (carryGo last carry (.or :: rest) = .or :: carryGo last last rest)
      ∧ (carryGo last (some c) (.term none text :: rest)
          = .term (some c) text :: carryGo (some c) none rest)
      ∧ (carryGo last (some c) (.quotedTerm none text :: rest)
          = .quotedTerm (some c) text :: carryGo (some c) none rest)
      ∧ (carryGo last carry (.not :: rest) = .not :: carryGo last carry rest)
      ∧ (carryGo last carry (.and :: rest) = .and :: carryGo last none rest)
      ∧ (carryGo last carry (.term (some c) text :: rest)
          = .term (some c) text :: carryGo (some c) carry rest)
      ∧ (carryGo last carry (.quotedTerm (some c) text :: rest)
          = .quotedTerm (some c) text :: carryGo (some c) carry rest) :=
  fun _ _ _ _ _ => ⟨rfl, rfl, rfl, rfl, rfl, rfl, rfl⟩

/-- Counterexample to C3 as stated: after `a:x | b:y`, the operand `b:y`
carries its own column, yet the pending carry `a` from the Or is NOT cleared,
so the following bare operand `z` still inherits column `a` (the claim as
stated predicts it would stay column-less). -/
theorem C3_counterexample :
    applyColumnCarry
        [.term (some "a") "x", .or, .term (some "b") "y", .term none "z"]
      = [.term (some "a") "x", .or, .term (some "b") "y", .term (some "a") "z"]
    ∧ applyColumnCarry
        [.term (some "a") "x", .or, .term (some "b") "y", .term none "z"]
      ≠ [.term (some "a") "x", .or, .term (some "b") "y", .term none "z"] := by
  exact ⟨rfl, by decide⟩

/-- C7 (amended): `update_flag` removes the row's entry when flag and memo both
trim to empty; otherwise it stores the entry exactly as given (the raw flag and
memo, not the normalised ones — normalisation happens on read). -/
theorem C7_update_flag_upsert :
    ∀ (m : List (Nat × FlagEntry)) (r : Nat) (flag : String) (memo : Option String),
      (((rtrim flag).isEmpty && ((memo.map fun mm => (rtrim mm).isEmpty).getD true)) = true →
        fmLookup (update_flag m r flag memo) r = none)
      ∧ (((rtrim flag).isEmpty && ((memo.map fun mm => (rtrim mm).isEmpty).getD true)) = false →
        fmLookup (update_flag m r flag memo) r = some ⟨flag, memo⟩) := by
  intro m r flag memo
  constructor
  · intro h
    unfold update_flag
    rw [if_pos h]
    exact fmLookup_remove m r
  · intro h
    unfold update_flag
    rw [if_neg (by simp [h])]
    exact fmLookup_insert m r ⟨flag, memo⟩

/-- Witness for C7 at concrete inputs. -/
theorem C7_update_flag_upsert_witness :
    fmLookup (update_flag [(0, ⟨"safe", some "m"⟩)] 0 " " (some " ")) 0 = none
    ∧ fmLookup (update_flag [] 1 "x" none) 1 = some ⟨"x", none⟩ :=
  ⟨(C7_update_flag_upsert [(0, ⟨"safe", some "m"⟩)] 0 " " (some " ")).1 (by decide),
   (C7_update_flag_upsert [] 1 "x" none).2 (by decide)⟩

/-- Counterexample to C7 as stated: an upsert with flag `SAFE` stores the raw
entry `⟨"SAFE", none⟩`, not the normalised entry `⟨"safe", none⟩`. -/
theorem C7_counterexample :
    fmLookup (update_flag [] 0 "SAFE" none) 0 = some ⟨"SAFE", none⟩
    ∧ fmLookup (update_flag [] 0 "SAFE" none) 0 ≠ some ⟨normalize_flag_value "SAFE", none⟩ := by
  exact ⟨rfl, by decide⟩

/-- C9: the mask evaluator is total — the mask always has the length of the
row-text vector; an empty RPN (final-readout underflow), a term with no
precomputed mask, and a column-scoped term whose column is absent from the
per-column map all read as `false`; an operand pop on an empty boolean stack
reads `false` (so a lone Not yields `!false = true`, lone And/Or yield
`false`). -/
theorem C9_mask_evaluator_total :
    (∀ (rpn : List SearchToken) (terms : List (Option String × String))
        (texts : List String) (pc : Option (List (String × List String))),
      (build_search_mask_boolean rpn terms texts pc).length = texts.length)
    ∧ (∀ (terms : List (Option String × String)) (texts : List String)
        (pc : Option (List (String × List String))),
        build_search_mask_boolean [] terms texts pc = List.replicate texts.length false)
    ∧ (∀ (c : Option String) (t : String) (texts : List String)
        (pc : Option (List (String × List String))),
        build_search_mask_boolean [.term c t] [] texts pc = List.replicate texts.length false)
    ∧ (∀ (c t : String) (texts : List String) (pc : List (String × List String)),
        pcLookup pc (rlower c) = none →
        build_search_mask_boolean [.term (some c) t] [(some c, t)] texts (some pc)
          = List.replicate texts.length false)
    ∧ (∀ (terms : List (Option String × String)) (texts : List String)
        (pc : Option (List (String × List String))),
        build_search_mask_boolean [.not] terms texts pc = List.replicate texts.length true)
    ∧ (∀ (terms : List (Option String × String)) (texts : List String)
        (pc : Option (List (String × List String))),
        build_search_mask_boolean [.and] terms texts pc = List.replicate texts.length false)
    ∧ (∀ (terms : List (Option String × String)) (texts : List String)
        (pc : Option (List (String × List String))),
        build_search_mask_boolean [.or] terms texts pc = List.replicate texts.length false) := by
  refine ⟨?_, ?_, ?_, ?_, ?_, ?_, ?_⟩
  · intro rpn terms texts pc
    simp [build_search_mask_boolean]
  · intro terms texts pc
    exact map_range_eq_replicate _ _ _ fun i _ => rfl
  · intro c t texts pc
    exact map_range_eq_replicate _ _ _ fun i _ => rfl
  · intro c t texts pc h
    unfold build_search_mask_boolean
    have hkm : buildKeyMasks [(some c, t)] texts (some pc)
        = [((some c, t), List.replicate texts.length false)] := by
      simp [buildKeyMasks, keyLookup, buildTermMask, h]
    rw [hkm]
    apply map_range_eq_replicate
    intro i _
    simp [rpnEvalGo, keyLookup, getD_get?_replicate_false]
  · intro terms texts pc
    exact map_range_eq_replicate _ _ _ fun i _ => rfl
  · intro terms texts pc
    exact map_range_eq_replicate _ _ _ fun i _ => rfl
  · intro terms texts pc
    exact map_range_eq_replicate _ _ _ fun i _ => rfl

/-- Witness for C9 (the column-absent conjunct) at concrete inputs. -/
theorem C9_mask_evaluator_total_witness :
    pcLookup [] (rlower "host") = none
    ∧ build_search_mask_boolean [.term (some "host") "x"] [(some "host", "x")] ["abc"] (some [])
        = List.replicate 1 false :=
  ⟨rfl, C9_mask_evaluator_total.2.2.2.1 "host" "x" ["abc"] [] rfl⟩

/-- C4: the sort step orders indices by the comparator that renders values to
search strings, strips separators, compares exactly as numbers (missing side
`+∞`) whenever some side parses as f64, otherwise case-insensitively as
strings with present sorting above absent, and reverses for descending; the
column `"1,000", "200", "30"` sorts ascending to 30, 200, 1000. -/
theorem C4_sort_comparator :
    (ordered_indices { sortKey := some "score" } exScore 3 = [2, 1, 0])
    ∧ (∀ (a b : String) (m1 e1 m2 e2 : Int) (desc : Bool),
        parseFVal a = some (.fin m1 e1) → parseFVal b = some (.fin m2 e2) →
        sortCmp desc (some a) (some b) =
          (if desc then (decOrd m1 e1 m2 e2).swap else decOrd m1 e1 m2 e2))
    ∧ (∀ (a : String) (m e : Int), parseFVal a = some (.fin m e) →
        sortCmp false (some a) none = .lt ∧ sortCmp false none (some a) = .gt)
    ∧ (∀ a b : String, parseFVal a = none → parseFVal b = none →
        sortCmp false (some a) (some b) = strOrd (rlower a) (rlower b)
        ∧ sortCmp false (some a) none = .gt ∧ sortCmp false none (some a) = .lt)
    ∧ (∀ (aS bS : Option String), sortCmp true aS bS = (sortCmp false aS bS).swap) := by
  refine ⟨by decide, ?_, ?_, ?_, ?_⟩
  · intro a b m1 e1 m2 e2 desc ha hb
    cases desc <;> simp [sortCmp, ha, hb, fcmp]
  · intro a m e ha
    constructor <;> simp [sortCmp, ha, fcmp]
  · intro a b ha hb
    refine ⟨?_, ?_, ?_⟩ <;> simp [sortCmp, ha, hb]
  · intro aS bS
    by_cases h : ((aS.bind parseFVal).isSome || (bS.bind parseFVal).isSome) = true
    · simp only [sortCmp, h]
      rfl
    · simp only [sortCmp, h]
      rfl

/-- Witness for C4 at concrete inputs. -/
theorem C4_sort_comparator_witness :
    (parseFVal "1000" = some (.fin 1000 0) ∧ parseFVal "200" = some (.fin 200 0))
    ∧ sortCmp false (some "1000") (some "200") =
        (if false then (decOrd 1000 0 200 0).swap else decOrd 1000 0 200 0)
    ∧ sortCmp false (some "30") none = .lt :=
  ⟨⟨by decide, by decide⟩,
   C4_sort_comparator.2.1 "1000" "200" 1000 0 200 0 false (by decide) (by decide),
   (C4_sort_comparator.2.2.1 "30" 30 0 (by decide)).1⟩

/-- C5 (amended): a cached IOC flag vector is reused exactly when its length
equals the row count AND it has at least one non-empty entry; a cache that is
absent or has mismatched length yields a fresh all-empty initial vector, and
any all-empty initial vector (including a length-matching cached one) triggers
the rebuild. -/
theorem C5_ioc_cache_reuse :
    (∀ (env : QueryEnv) (p : QueryPayload) (c : List String),
      env.cachedIocFlags = some c →
      c.length = dfHeight env.table →
      c.any (fun s => !s.isEmpty) = true →
      queryIocVec env p = c ∧ (query_project_rows env p).newIocCache = some c)
    ∧ (∀ (cached : Option (List String)) (height : Nat),
        (∀ c, cached = some c → c.length ≠ height) →
        iocVecInit cached height = List.replicate height "")
    ∧ (∀ height : Nat, needRebuildIoc (List.replicate height "") = true) := by
  refine ⟨?_, ?_, ?_⟩
  · intro env p c hc hlen hany
    have hinit : iocVecInit env.cachedIocFlags (dfHeight env.table) = c := by
      rw [hc]
      simp [iocVecInit, hlen]
    have hrb : needRebuildIoc c = false := by
      unfold needRebuildIoc
      rcases List.any_eq_true.mp hany with ⟨x, hx, hxe⟩
      cases hq : c.all (·.isEmpty)
      · rfl
      · have hxx := List.all_eq_true.mp hq x hx
        simp only at hxx
        rw [hxx] at hxe
        simp at hxe
    constructor
    · unfold queryIocVec queryIocState
      dsimp only
      rw [hinit, hrb]
      simp
    · unfold query_project_rows
      dsimp only
      rw [hinit, hrb]
      simp [hc]
  · intro cached height h
    cases cached with
    | none => rfl
    | some c => simp [iocVecInit, h c rfl]
  · intro height
    unfold needRebuildIoc
    rw [List.all_eq_true]
    intro x hx
    have hx0 : x = "" := List.eq_of_mem_replicate hx
    subst hx0
    exact (String.isEmpty_iff "").mpr rfl

/-- Witness for C5 at concrete inputs. -/
theorem C5_ioc_cache_reuse_witness :
    queryIocVec envCachedIoc {} = ["critical"]
    ∧ (query_project_rows envCachedIoc {}).newIocCache = some ["critical"] :=
  C5_ioc_cache_reuse.1 envCachedIoc {} ["critical"] rfl (by decide) (by decide)

/-- Counterexample to C5 as stated: a cached vector of matching length whose
entries are all empty is NOT reused — the rebuild runs and produces a
different vector. -/
theorem C5_counterexample :
    envEmptyCache.cachedIocFlags = some [""]
    ∧ ([""] : List String).length = dfHeight envEmptyCache.table
    ∧ queryIocVec envEmptyCache {} = ["critical"]
    ∧ queryIocVec envEmptyCache {} ≠ [""] :=
  ⟨rfl, rfl, rfl, by decide⟩

/-- C2 (amended): a page row's memo is exactly the user memo whenever the
row's final flag differs from its entry in the IOC flag vector; when the IOC
vector was rebuilt in this call, that is guaranteed for every row with a
non-empty user flag (the rebuilt vector is empty there), so such rows get the
user memo verbatim.  With a reused stale cached vector whose entry coincides
with the user flag, IOC tags ARE appended (see the counterexample). -/
theorem C2_user_memo_verbatim :
    (∀ (flags : List (Nat × FlagEntry)) (iocs : List IocEntry) (cn : List String)
        (t : Table) (finalVec iocVec : List String) (i : Nat),
      finalVec.getD i "" ≠ iocVec.getD i "" →
      (composeRow flags iocs cn t finalVec iocVec i).memo =
        (if (((fmLookup flags i).bind (·.memo)).getD "").isEmpty then none
         else some (((fmLookup flags i).bind (·.memo)).getD "")))
    ∧ (∀ (env : QueryEnv) (p : QueryPayload) (i : Nat),
        needRebuildIoc (iocVecInit env.cachedIocFlags (dfHeight env.table)) = true →
        ((queryUserVec env).getD i "").isEmpty = false →
        (queryIocVec env p).getD i "" = "")
    ∧ (∀ (env : QueryEnv) (p : QueryPayload) (i : Nat),
        needRebuildIoc (iocVecInit env.cachedIocFlags (dfHeight env.table)) = true →
        ((queryUserVec env).getD i "").isEmpty = false →
        (composeRow env.flags env.iocs (queryColumnNames env.table) env.table
            (queryFinalVec env p) (queryIocVec env p) i).memo =
          (if (((fmLookup env.flags i).bind (·.memo)).getD "").isEmpty then none
           else some (((fmLookup env.flags i).bind (·.memo)).getD ""))) := by
  have part1 : ∀ (flags : List (Nat × FlagEntry)) (iocs : List IocEntry) (cn : List String)
      (t : Table) (finalVec iocVec : List String) (i : Nat),
      finalVec.getD i "" ≠ iocVec.getD i "" →
      (composeRow flags iocs cn t finalVec iocVec i).memo =
        (if (((fmLookup flags i).bind (·.memo)).getD "").isEmpty then none
         else some (((fmLookup flags i).bind (·.memo)).getD "")) := by
    intro flags iocs cn t finalVec iocVec i hne
    have hbeq : (finalVec.getD i "" == iocVec.getD i "") = false :=
      beq_eq_false_iff_ne.mpr hne
    unfold composeRow
    dsimp only
    rw [hbeq]
    simp
  have part2 : ∀ (env : QueryEnv) (p : QueryPayload) (i : Nat),
      needRebuildIoc (iocVecInit env.cachedIocFlags (dfHeight env.table)) = true →
      ((queryUserVec env).getD i "").isEmpty = false →
      (queryIocVec env p).getD i "" = "" := by
    intro env p i h hu
    rw [queryIocVec_userflagged env p i hu]
    exact all_empty_getD _ h i
  refine ⟨part1, part2, ?_⟩
  intro env p i h hu
  have hlt := userVec_lt env i hu
  have hioc := part2 env p i h hu
  have hfv : (queryFinalVec env p).getD i "" = (queryUserVec env).getD i "" := by
    rw [queryFinalVec_getD env p i hlt]
    rw [hu]
    simp
  apply part1
  rw [hfv, hioc]
  exact isEmpty_false_ne _ hu

/-- Witness for C2 at concrete inputs. -/
theorem C2_user_memo_verbatim_witness :
    (composeRow [(0, ⟨"critical", some "benign"⟩)] [⟨"critical", "mal", "malware"⟩]
        ["c"] exOneRow ["critical"] [""] 0).memo =
      (if (((fmLookup [(0, ⟨"critical", some "benign"⟩)] 0).bind (·.memo)).getD "").isEmpty
       then none
       else some (((fmLookup [(0, ⟨"critical", some "benign"⟩)] 0).bind (·.memo)).getD "")) :=
  C2_user_memo_verbatim.1 [(0, ⟨"critical", some "benign"⟩)] [⟨"critical", "mal", "malware"⟩]
    ["c"] exOneRow ["critical"] [""] 0 (by decide)

/-- Counterexample to C2 as stated: with a stale cached IOC vector whose entry
equals the (normalised) user flag, the page row for a user-flagged row gets
`[mal]` appended to the user memo `benign` instead of the user memo verbatim. -/
theorem C2_counterexample :
    (queryUserVec envStale).getD 0 "" = "critical"
    ∧ (query_project_rows envStale {}).rows = [⟨0, "critical", some "benign [mal]"⟩]
    ∧ (some "benign [mal]" : Option String) ≠ some "benign" :=
  ⟨rfl, rfl, by decide⟩

/-- C10: for a page row whose final flag and IOC-vector entry are both empty,
the memo-composition guard (`final == ioc`, empty equals empty) fires, so the
`[tag]` of every matching rule with a non-empty query, a non-empty term set
and a non-empty trimmed tag lands in the returned memo while the row's flag
stays empty; moreover the tag collection ignores the rules' flags entirely,
so a rule whose flag normalises to empty still contributes its tag. -/
theorem C10_tag_without_flag :
    (∀ (flags : List (Nat × FlagEntry)) (iocs : List IocEntry) (cn : List String)
        (t : Table) (finalVec iocVec : List String) (i : Nat) (e : IocEntry),
      iocs ≠ [] →
      finalVec.getD i "" = "" →
      iocVec.getD i "" = "" →
      e ∈ iocs →
      (rtrim e.query).isEmpty = false →
      ((collectTermsCols (tokenize_search_query (rtrim e.query))).1).isEmpty = false →
      (build_search_mask_boolean (to_rpn (tokenize_search_query (rtrim e.query)))
          (collectTermsCols (tokenize_search_query (rtrim e.query))).1
          [(build_row_search_text cn t i).1]
          (some (build_row_search_text cn t i).2)).headD false = true →
      (rtrim e.tag).isEmpty = false →
      ∃ m, (composeRow flags iocs cn t finalVec iocVec i).memo = some m
        ∧ strHasSub m ("[" ++ rtrim e.tag ++ "]") = true
        ∧ (composeRow flags iocs cn t finalVec iocVec i).flag = "")
    ∧ (∀ (iocs : List IocEntry) (f : IocEntry → String) (cn : List String)
        (t : Table) (i : Nat),
        collectMemoTags (iocs.map fun e => ⟨f e, e.tag, e.query⟩) cn t i
          = collectMemoTags iocs cn t i) := by
  constructor
  · intro flags iocs cn t finalVec iocVec i e hne hfv hiv he hq hterms hmask htag
    have hie : iocs.isEmpty = false := by
      cases iocs with
      | nil => exact absurd rfl hne
      | cons hd tl => rfl
    have hguard : (!iocs.isEmpty && (finalVec.getD i "" == iocVec.getD i "")) = true := by
      rw [hfv, hiv, hie]
      rfl
    have hmem := collectMemoTags_mem cn t i iocs e he hq hterms hmask htag
    have hsub := appendTags_contains (collectMemoTags iocs cn t i)
      (((fmLookup flags i).bind (·.memo)).getD "") ("[" ++ rtrim e.tag ++ "]") hmem
    have hne0 : (appendTags (((fmLookup flags i).bind (·.memo)).getD "")
        (collectMemoTags iocs cn t i)).isEmpty = false := by
      apply ne_isEmpty_false
      intro h0
      rw [h0] at hsub
      unfold strHasSub at hsub
      rw [String.data_append, String.data_append] at hsub
      cases hsub
    refine ⟨appendTags (((fmLookup flags i).bind (·.memo)).getD "")
      (collectMemoTags iocs cn t i), ?_, hsub, ?_⟩
    · unfold composeRow
      dsimp only
      rw [hguard]
      simp only [if_true]
      rw [if_neg (by rw [hne0]; simp)]
    · unfold composeRow
      dsimp only
      exact hfv
  · intro iocs f cn t i
    unfold collectMemoTags
    rw [List.foldl_map]
    rfl

/-- Witness for C10 at concrete inputs (a matching rule whose flag is the
empty string still contributes its `[mal]` tag, and the row stays unflagged). -/
theorem C10_tag_without_flag_witness :
    ∃ m, (composeRow [] [⟨"", "mal", "malware"⟩] ["c"] exOneRow [""] [""] 0).memo = some m
      ∧ strHasSub m ("[" ++ rtrim "mal" ++ "]") = true
      ∧ (composeRow [] [⟨"", "mal", "malware"⟩] ["c"] exOneRow [""] [""] 0).flag = "" :=
  C10_tag_without_flag.1 [] [⟨"", "mal", "malware"⟩] ["c"] exOneRow [""] [""] 0
    ⟨"", "mal", "malware"⟩ (by decide) rfl rfl (by decide) (by decide) (by decide)
    (by decide) (by decide)

/-- C8: writing a list of fieldwise-normalised IOC entries to CSV and reading
it back yields the same list with empty-query rows dropped; when every query
is non-empty the round trip is the identity (a fixed point after one round). -/
theorem C8_csv_roundtrip :
    ∀ entries : List IocEntry,
      (∀ e ∈ entries, normalize_flag_value e.flag = e.flag ∧ rtrim e.tag = e.tag
        ∧ rtrim e.query = e.query) →
      read_ioc_csv (write_ioc_csv entries) = entries.filter (fun e => !e.query.isEmpty)
      ∧ ((∀ e ∈ entries, e.query ≠ "") →
          read_ioc_csv (write_ioc_csv entries) = entries) := by
  have main : ∀ l : List IocEntry,
      (∀ e ∈ l, normalize_flag_value e.flag = e.flag ∧ rtrim e.tag = e.tag
        ∧ rtrim e.query = e.query) →
      read_ioc_csv (write_ioc_csv l) = l.filter (fun e => !e.query.isEmpty) := by
    intro l
    induction l with
    | nil => intro _; rfl
    | cons e tl ih =>
      intro h
      have he := h e (List.mem_cons_self e tl)
      have htl := fun x hx => h x (List.mem_cons_of_mem e hx)
      rw [read_write_filterMap] at ih ⊢
      rw [List.filterMap_cons, List.filter_cons]
      rw [he.2.2, he.2.1, normalize_fix_trim e.flag he.1, he.1]
      by_cases hq : e.query.isEmpty
      · simp only [hq, if_true, Bool.not_true, Bool.false_eq_true, if_false]
        exact ih htl
      · simp only [hq, Bool.false_eq_true, if_false, Bool.not_false, if_true]
        rw [ih htl]
  intro entries h
  refine ⟨main entries h, ?_⟩
  intro hnz
  rw [main entries h]
  apply List.filter_eq_self.mpr
  intro e he
  rw [ne_isEmpty_false e.query (hnz e he)]
  rfl

/-- C6 (amended): a search input consisting only of whitespace and `|`
characters behaves exactly as if no search were given (the whole response is
identical), and the engine is total — the filtered-row count never exceeds the
table's row count for ANY payload.  A search consisting of `-` characters,
however, builds a literal-term mask (see the counterexample). -/
theorem C6_degenerate_search :
    (∀ (env : QueryEnv) (p : QueryPayload) (s : String),
      (s.data.all fun c => chIsWs c || c == '|') = true →
      query_project_rows env { p with search := some s }
        = query_project_rows env { p with search := none })
    ∧ (∀ (env : QueryEnv) (p : QueryPayload),
        (query_project_rows env p).total_filtered_rows
          ≤ (query_project_rows env p).total_rows) := by
  constructor
  · intro env p s h
    have hss : querySearchState env { p with search := some s }
        = querySearchState env { p with search := none } := by
      unfold querySearchState
      dsimp only
      unfold searchMaskBlock
      dsimp only
      by_cases he : (rtrim s).isEmpty
      · simp [he]
      · have hall : ((rtrim s).data.all fun c => chIsWs c || c == '|') = true := by
          have : (rtrim s).data = chTrimAux s.data := rfl
          rw [this]
          exact all_chTrimAux _ _ h
        have htoks := tokenize_ops (rtrim s) hall
        have htc := collectTermsCols_ops _ htoks
        simp [he, htc]
    unfold query_project_rows queryFiltered queryFinalVec queryIocVec queryIocState
      queryUserVec ordered_indices
    dsimp only
    rw [hss]
  · intro env p
    unfold query_project_rows
    dsimp only
    unfold queryFiltered
    dsimp only
    calc (List.filter _ (ordered_indices p env.table (dfHeight env.table))).length
        ≤ (ordered_indices p env.table (dfHeight env.table)).length :=
          List.length_filter_le _ _
      _ = dfHeight env.table := length_ordered_indices _ _ _

/-- Witness for C6 at concrete inputs. -/
theorem C6_degenerate_search_witness :
    (("| ".data.all fun c => chIsWs c || c == '|') = true)
    ∧ query_project_rows envAbc { ({} : QueryPayload) with search := some "| " }
        = query_project_rows envAbc { ({} : QueryPayload) with search := none } :=
  ⟨by decide, C6_degenerate_search.1 envAbc {} "| " (by decide)⟩

/-- Counterexample to C6 as stated: the search `-` consists only of operator
characters, yet it is lexed as the literal term `-`, a mask IS built, and a
row not containing `-` is filtered out instead of admitted. -/
theorem C6_counterexample :
    (("-".data.all fun c => c == '|' || c == '-') = true)
    ∧ (query_project_rows envAbc { search := some "-" }).total_filtered_rows = 0
    ∧ (query_project_rows envAbc { search := none }).total_filtered_rows = 1 :=
  ⟨by decide, rfl, rfl⟩

/-- Witness for C8 at concrete inputs (the second entry's empty query is
dropped on read). -/
theorem C8_csv_roundtrip_witness :
    (∀ e ∈ ([⟨"critical", "mal", "malware"⟩, ⟨"", "b", ""⟩] : List IocEntry),
      normalize_flag_value e.flag = e.flag ∧ rtrim e.tag = e.tag ∧ rtrim e.query = e.query)
    ∧ read_ioc_csv (write_ioc_csv [⟨"critical", "mal", "malware"⟩, ⟨"", "b", ""⟩])
        = ([⟨"critical", "mal", "malware"⟩, ⟨"", "b", ""⟩] : List IocEntry).filter
            (fun e => !e.query.isEmpty) :=
  ⟨by decide, (C8_csv_roundtrip [⟨"critical", "mal", "malware"⟩, ⟨"", "b", ""⟩] (by decide)).1⟩

end Trivium
